import Mathlib

/-!
Shallow embedding of the mailing-list-validator core engine
(src/parser.py, src/processor.py, src/schema.py).

Python strings are modelled as Lean `String` (a list of characters);
all operations (strip, lower, split, substring test, join, sort) are
defined below directly on the character list, mirroring the Python
semantics used by the source (ASCII case mapping, whitespace set
space/tab/newline/carriage-return).
-/

namespace MLV

/-- Whitespace test used by Python `str.strip` / `str.split` (ASCII subset). -/
def isWS (c : Char) : Bool :=
  c = ' ' || c = '\t' || c = '\n' || c = '\r'

/-- Remove leading and trailing whitespace from a character list (Python `strip`). -/
def trimList (l : List Char) : List Char :=
  ((l.dropWhile isWS).reverse.dropWhile isWS).reverse

/-- Python `str.strip`. -/
def pyStrip (s : String) : String := ⟨trimList s.data⟩

/-- Python `str.lower` (ASCII). -/
def pyLower (s : String) : String := ⟨s.data.map Char.toLower⟩

/-- Python `len` on a string: number of characters. -/
def pyLen (s : String) : Nat := s.data.length

/-- Is `n` a prefix of `h`? -/
def startsWithL (n h : List Char) : Bool :=
  match n, h with
  | [], _ => true
  | _ :: _, [] => false
  | a :: as, b :: bs => a == b && startsWithL as bs

/-- Does `n` occur as a contiguous substring of `h`? (Python `in` on strings.) -/
def occursIn (n : List Char) : List Char → Bool
  | [] => startsWithL n []
  | c :: t => startsWithL n (c :: t) || occursIn n t

/-- Python `needle in haystack` for strings. -/
def pyIn (needle haystack : String) : Bool :=
  occursIn needle.data haystack.data

/-- Split a character list at every separator character satisfying `p`,
keeping empty pieces (Python `str.split(',')` semantics for `p = (· == ',')`). -/
def splitAux (p : Char → Bool) : List Char → List Char → List (List Char)
  | [], acc => [acc.reverse]
  | c :: rest, acc =>
    if p c then acc.reverse :: splitAux p rest []
    else splitAux p rest (c :: acc)

/-- Python `val.split(',')`. -/
def pySplitComma (s : String) : List String :=
  (splitAux (fun c => c == ',') s.data []).map (fun w => ⟨w⟩)

/-- Whitespace-run splitter dropping empty pieces (Python `str.split()` with
no argument). -/
def wordsAux : List Char → List Char → List (List Char)
  | [], acc => if acc = [] then [] else [acc.reverse]
  | c :: rest, acc =>
    if isWS c then
      if acc = [] then wordsAux rest [] else acc.reverse :: wordsAux rest []
    else wordsAux rest (c :: acc)

/-- Python `s.split()` (split on whitespace runs, no empty words). -/
def pyWords (s : String) : List String :=
  (wordsAux s.data []).map (fun w => ⟨w⟩)

/-- Python `sep.join(xs)`. -/
def pyJoin (sep : String) : List String → String
  | [] => ""
  | [x] => x
  | x :: y :: t => x ++ sep ++ pyJoin sep (y :: t)

/-- Code-point lexicographic comparison of character lists (Python string `<=`). -/
def lexLe : List Char → List Char → Bool
  | [], _ => true
  | _ :: _, [] => false
  | a :: as, b :: bs =>
    if a.val < b.val then true
    else if b.val < a.val then false
    else lexLe as bs

/-- Python `<=` on strings. -/
def strLe (s t : String) : Bool := lexLe s.data t.data

/-- Insert a string into a sorted list (helper for `sortStrs`). -/
def insertSorted (x : String) : List String → List String
  | [] => [x]
  | y :: ys => if strLe x y then x :: y :: ys else y :: insertSorted x ys

/-- Python `sorted` on a list of strings. -/
def sortStrs (l : List String) : List String := l.foldr insertSorted []

/-- Keep the first occurrence of each string (Python `set` membership collection). -/
def dedupAux : List String → List String → List String
  | [], _ => []
  | x :: xs, seen =>
    if seen.contains x then dedupAux xs seen else x :: dedupAux xs (x :: seen)

/-- Distinct elements of a list, first occurrences kept. -/
def dedupKeep (l : List String) : List String := dedupAux l []

/-- Python `s[:50]`. -/
def take50 (s : String) : String := ⟨s.data.take 50⟩

/-! ## Schema (src/schema.py) -/

/-- The 17 canonical output fields, in declared order (schema.OUTPUT_FIELDS). -/
def OUTPUT_FIELDS : List String :=
  ["EMAIL", "FIRSTNAME", "LASTNAME", "FULLNAME", "COMPANYNAME",
   "SMS", "LANDLINE_NUMBER", "WHATSAPP", "INTERESTS", "LINKEDIN",
   "FACEBOOK", "WEBSITE", "ADDRESS1", "ADDRESS2", "CITY", "COUNTRY", "POSTCODE"]

/-- Alias table for field detection (schema.FIELD_MAPPINGS), in declared order. -/
def FIELD_MAPPINGS : List (String × List String) :=
  [("EMAIL", ["email", "e-mail", "email address", "e_mail", "mail",
              "hq email", "primary contact email", "contact email"]),
   ("FULLNAME", ["fullname", "full name", "name", "full_name",
                 "contact name", "primary contact"]),
   ("FIRSTNAME", ["firstname", "first name", "first_name", "fname",
                  "given name", "givenname"]),
   ("COMPANYNAME", ["company", "companyname", "company name", "company_name",
                    "organization", "organisation", "org", "firm",
                    "investors", "investor", "investor name"]),
   ("LASTNAME", ["lastname", "last name", "last_name", "lname",
                 "surname", "family name", "familyname"]),
   ("SMS", ["sms", "mobile", "mobile number", "mobile phone",
            "cell", "cellphone", "cell phone", "mobile_phone"]),
   ("LANDLINE_NUMBER", ["landline", "landline number", "phone", "telephone",
                        "phone number", "tel", "hq phone", "primary contact phone"]),
   ("WHATSAPP", ["whatsapp", "whatsapp number", "wa", "whatsapp_number"]),
   ("INTERESTS", ["interests", "interest", "tags", "categories",
                  "preferred industry", "preferred verticals", "verticals",
                  "primary industry sector", "description"]),
   ("LINKEDIN", ["linkedin", "linkedin url", "linkedin profile",
                 "linkedin_url", "linkedin_profile"]),
   ("FACEBOOK", ["facebook", "facebook url", "facebook profile",
                 "facebook_url", "facebook_profile"]),
   ("WEBSITE", ["website", "web", "url", "site", "homepage",
                "web site", "web_site", "company website"]),
   ("ADDRESS1", ["address1", "address line 1", "address_line_1",
                 "address", "street", "street address",
                 "hq address line 1", "hq address"]),
   ("ADDRESS2", ["address2", "address line 2", "address_line_2",
                 "address line2", "hq address line 2"]),
   ("CITY", ["city", "town", "municipality", "hq city", "hq location"]),
   ("COUNTRY", ["country", "country/territory", "nation",
                "hq country", "hq country/territory"]),
   ("POSTCODE", ["postcode", "post code", "postal code", "zip",
                 "zip code", "postal_code", "zipcode",
                 "state_province_region", "hq post code"])]

/-- A contact record: total map from field name to string value.
Fields outside OUTPUT_FIELDS are conventionally empty (`get_output_template`
initializes every canonical field to the empty string). -/
abbrev Rec := String → String

/-- schema.get_output_template: every field empty. -/
def outputTemplate : Rec := fun _ => ""

/-- Functional update of a record at one key (dict item assignment). -/
def updF (r : Rec) (k v : String) : Rec := fun f => if f = k then v else r f

/-! ## Value sanitizer (parser.py: is_valid_email, contains_garbage, clean_value) -/

/-- Character class `[a-zA-Z0-9._%+-]` of the email local part. -/
def localChar (c : Char) : Bool :=
  c.isAlpha || c.isDigit || c = '.' || c = '_' || c = '%' || c = '+' || c = '-'

/-- Character class `[a-zA-Z0-9.-]` of the email domain part. -/
def domChar (c : Char) : Bool :=
  c.isAlpha || c.isDigit || c = '.' || c = '-'

/-- Split a character list at the first occurrence of `sep`. -/
def splitAtFirst (sep : Char) : List Char → Option (List Char × List Char)
  | [] => none
  | c :: rest =>
    if c = sep then some ([], rest)
    else (splitAtFirst sep rest).map (fun p => (c :: p.1, p.2))

/-- Checker for the domain side of the email regex: `[a-zA-Z0-9.-]+\.[a-zA-Z]{2,}`,
anchored at both ends.  Since the final group is alphabetic only, the `\.` of
any match is the last dot of the string, so the match is checked at the
maximal trailing alphabetic run. -/
def checkDomain (d : List Char) : Bool :=
  let rev := d.reverse
  let tld := rev.takeWhile (fun c => c.isAlpha)
  let rest := rev.dropWhile (fun c => c.isAlpha)
  decide (2 ≤ tld.length) &&
    (match rest with
     | '.' :: p => !p.isEmpty && p.all domChar
     | _ => false)

/-- parser.is_valid_email: strip, then match
`^[a-zA-Z0-9._%+-]+@[a-zA-Z0-9.-]+\.[a-zA-Z]{2,}$`.
The `@` belongs to neither character class, so a match splits the string at
its unique `@`. -/
def isValidEmail (email : String) : Bool :=
  let l := trimList email.data
  match splitAtFirst '@' l with
  | none => false
  | some (loc, dom) => !loc.isEmpty && loc.all localChar && checkDomain dom

/-- parser.contains_garbage: the fixed marker list (the last two Python
entries are both U+FFFC, kept as in the source). -/
def garbageMarkers : List String :=
  ["#VALUE!", "#REF!", "#DIV/0!", "#N/A", "#NAME?", "#NULL!", "#NUM!",
   "￼", "￼"]

/-- parser.contains_garbage. -/
def containsGarbage (value : String) : Bool :=
  if value = "" then false
  else
    let v := pyStrip value
    garbageMarkers.any (fun p => pyIn p v)

/-- parser.clean_value. -/
def cleanValue (value : String) : String :=
  if value = "" then ""
  else
    let v := pyStrip value
    if containsGarbage v then "" else v

/-! ## Field mapper (parser.map_fields) -/

/-- Build the `input_columns` dict: lowered header to original header,
Python dict semantics (updating an existing key keeps its position). -/
def dictInsert (d : List (String × String)) (k v : String) : List (String × String) :=
  if d.any (fun p => p.1 = k) then
    d.map (fun p => if p.1 = k then (k, v) else p)
  else d ++ [(k, v)]

/-- parser.map_fields: `input_columns = {col.lower(): col for col in df.columns}`. -/
def buildCols (headers : List String) : List (String × String) :=
  headers.foldl (fun d h => dictInsert d (pyLower h) h) []

/-- Dict lookup. -/
def dlookup (d : List (String × String)) (k : String) : Option String :=
  (d.find? (fun p => p.1 = k)).map (fun p => p.2)

/-- Inner loops of parser.map_fields for a single output field: scan the
aliases in order; an exact match binds (unconditionally) and stops; a partial
(substring either way) match binds only if the field is not yet bound, after
which scanning of further aliases continues. -/
def processPatterns (cols : List (String × String)) :
    List String → Option String → Option String
  | [], binding => binding
  | pat :: rest, binding =>
    let pl := pyLower pat
    match dlookup cols pl with
    | some orig => some orig
    | none =>
      let binding2 :=
        match binding with
        | some b => some b
        | none =>
          match cols.find? (fun p => pyIn pl p.1 || pyIn p.1 pl) with
          | some p => some p.2
          | none => none
      processPatterns cols rest binding2

/-- parser.map_fields. -/
def mapFields (headers : List String) : List (String × String) :=
  let cols := buildCols headers
  FIELD_MAPPINGS.foldl
    (fun acc fp =>
      match processPatterns cols fp.2 none with
      | some orig => acc ++ [(fp.1, orig)]
      | none => acc)
    []

/-! ## Name classifier (parser.is_likely_company_name) -/

/-- The fixed organization-indicator substrings. -/
def companyIndicators : List String :=
  ["ltd", "limited", "llc", "inc", "corp", "corporation",
   "company", "co.", "plc", "gmbh", "sa", "ag", "nv",
   "pty", "group", "holdings", "enterprises", "industries",
   "solutions", "services", "consulting", "technologies",
   "systems", "partners", "associates", "venture", "capital",
   "investment", "fund", "management", "trust", "foundation",
   "&", " and ", " the ", "equity", "ventures", "advisors",
   "futures", "factor"]

/-- Python `str.isupper`: at least one cased character and no lowercase
character (ASCII model). -/
def pyIsUpper (s : String) : Bool :=
  s.data.any (fun c => c.isUpper || c.isLower) && s.data.all (fun c => !c.isLower)

/-- The person-honorific tokens checked by rule 3. -/
def honorifics : List String := ["dr", "mr", "ms", "mrs"]

/-- parser.is_likely_company_name (`text_lower` and `parts` of the source are
inlined as `pyLower (pyStrip text)` and its word list). -/
def isLikelyCompanyName (text : String) : Bool :=
  if text = "" then false
  else if companyIndicators.any (fun ind => pyIn ind (pyLower (pyStrip text))) then true
  else if decide (2 ≤ (pyWords (pyLower (pyStrip text))).length)
          && (pyWords (pyLower (pyStrip text))).all
               (fun p => p == (pyWords (pyLower (pyStrip text))).headD "") then true
  else if pyIsUpper text && decide (2 < pyLen text)
          && !(honorifics.any (fun w => pyIn w (pyLower (pyStrip text)))) then true
  else false

/-! ## Name splitter (parser.extract_name_parts) -/

/-- parser.extract_name_parts. -/
def extractNameParts (fullname : String) : String × String :=
  if fullname = "" then ("", "")
  else
    let parts := pyWords (pyStrip fullname)
    if parts.length = 0 then ("", "")
    else if parts.length = 1 then (parts.headD "", "")
    else if parts.length = 2 then (parts.headD "", (parts.drop 1).headD "")
    else if 3 < parts.length then
      (pyJoin " " (parts.take (parts.length - 2)), pyJoin " " (parts.drop (parts.length - 2)))
    else
      (pyJoin " " (parts.take (parts.length - 1)), (parts.drop (parts.length - 1)).headD "")

/-! ## Record normalizer (parser.parse_file, per-row loop, lines 367-445) -/

/-- A raw row: total map from raw header name to raw cell value
(`row.get(input_column, '')`; a missing column yields the empty string,
which maps to the same record as Python's untouched template entry). -/
abbrev Row := String → String

/-- Field mapping and cleaning step of the row loop:
`record[output_field] = clean_value(str(value).strip())` over the row's
field mapping, starting from the all-empty template. -/
def mappedRecord (fm : List (String × String)) (row : Row) : Rec :=
  fm.foldl (fun r p => updF r p.1 (cleanValue (pyStrip (row p.2)))) outputTemplate

/-- Defensive garbage re-check:
`any(contains_garbage(str(v)) for v in record.values() if v)`. -/
def hasGarbageRec (r : Rec) : Bool :=
  (OUTPUT_FIELDS.filter (fun f => r f != "")).any (fun f => containsGarbage (r f))

/-- The company-suppression condition of the row loop (parser.py lines
388-411): a name field classified as a company, or all three name fields
non-empty, identical and single-word, or a name field equal to the non-empty
stripped COMPANYNAME. -/
def companyCond (r : Rec) : Bool :=
  let c1 := isLikelyCompanyName (r "FIRSTNAME") || isLikelyCompanyName (r "LASTNAME")
              || isLikelyCompanyName (r "FULLNAME")
  let c2 := (r "FIRSTNAME" != "") && (r "LASTNAME" != "") && (r "FULLNAME" != "")
              && (r "FIRSTNAME" == r "LASTNAME") && (r "LASTNAME" == r "FULLNAME")
              && ((pyWords (r "FULLNAME")).length == 1)
  let company := pyStrip (r "COMPANYNAME")
  let c3 := (r "COMPANYNAME" != "") && (company != "")
              && ((r "FIRSTNAME" == company) || (r "LASTNAME" == company)
                    || (r "FULLNAME" == company))
  c1 || c2 || c3

/-- Name-field resolution of the row loop (parser.py lines 413-443):
company suppression, else the three person-name cases. -/
def resolveNames (r : Rec) : Rec :=
  if companyCond r then
    updF (updF (updF r "FIRSTNAME" "") "LASTNAME" "") "FULLNAME" ""
  else if (r "FIRSTNAME" != "") && (r "LASTNAME" != "")
            && (pyStrip (r "FIRSTNAME") == pyStrip (r "LASTNAME"))
            && (pyStrip (r "FIRSTNAME")).data.any (fun c => c == ' ') then
    let fl := extractNameParts (r "FIRSTNAME")
    let r1 := updF (updF r "FIRSTNAME" fl.1) "LASTNAME" fl.2
    if r1 "FULLNAME" == "" then updF r1 "FULLNAME" (pyStrip (fl.1 ++ " " ++ fl.2))
    else r1
  else if (r "FULLNAME" != "") && ((r "FIRSTNAME" == "") || (r "LASTNAME" == "")) then
    let fl := extractNameParts (r "FULLNAME")
    let r1 := if r "FIRSTNAME" == "" then updF r "FIRSTNAME" fl.1 else r
    if r1 "LASTNAME" == "" then updF r1 "LASTNAME" fl.2 else r1
  else if (r "FULLNAME" == "") && ((r "FIRSTNAME" != "") || (r "LASTNAME" != "")) then
    updF r "FULLNAME" (pyStrip (r "FIRSTNAME" ++ " " ++ r "LASTNAME"))
  else r

/-- One iteration of the row loop: map and clean the fields, drop the row on
unresolved garbage or on a missing/invalid email, otherwise resolve the name
fields and emit the record. -/
def parseRow (fm : List (String × String)) (row : Row) : Option Rec :=
  let record := mappedRecord fm row
  if hasGarbageRec record then none
  else if (record "EMAIL" == "") || !isValidEmail (record "EMAIL") then none
  else some (resolveNames record)

/-- The row loop of parser.parse_file over a list of rows. -/
def parseRows (fm : List (String × String)) : List Row → List Rec
  | [] => []
  | row :: rest =>
    match parseRow fm row with
    | some r => r :: parseRows fm rest
    | none => parseRows fm rest

/-! ## Merge engine (processor._merge_records) -/

/-- Token collection of the INTERESTS branch:
`[i.strip() for i in val.split(',') if i.strip()]`. -/
def interestTokens (v : String) : List String :=
  ((pySplitComma v).map pyStrip).filter (fun t => t != "")

/-- INTERESTS combination: union of the token sets of both values,
sorted lexicographically, joined with `", "`. -/
def combineInterests (ev nv : String) : String :=
  pyJoin ", " (sortStrs (dedupKeep (interestTokens ev ++ interestTokens nv)))

/-- Per-field body of the merge loop of processor._merge_records. -/
def mergeField (field : String) (eOrig nOrig : String) : String :=
  let ev := pyStrip eOrig
  let nv := pyStrip nOrig
  if (ev == "") && (nv != "") then nv
  else if (ev != "") && (nv != "") then
    if field == "INTERESTS" then combineInterests ev nv
    else if pyLen ev < pyLen nv then nv
    else eOrig
  else eOrig

/-- processor._merge_records: start from a copy of `existing` and update each
canonical field by the loop body (each iteration reads only the two source
records at that field). -/
def mergeRecords (e n : Rec) : Rec := fun field =>
  if OUTPUT_FIELDS.contains field then mergeField field (e field) (n field)
  else e field

/-! ## Dedup key generator (processor._generate_dedup_key) -/

/-- processor._generate_dedup_key.  The non-deterministic `uuid.uuid4()` of
the last-resort branch is modelled by the explicit parameter `tok`. -/
def generateDedupKey (tok : String) (r : Rec) : String :=
  let email := pyLower (pyStrip (r "EMAIL"))
  if email != "" then "email:" ++ email
  else
    let fullname := pyLower (pyStrip (r "FULLNAME"))
    let firstname := pyLower (pyStrip (r "FIRSTNAME"))
    let lastname := pyLower (pyStrip (r "LASTNAME"))
    let nameKey := if fullname != "" then fullname
                   else pyStrip (firstname ++ " " ++ lastname)
    if nameKey != "" then
      let w := pyLower (pyStrip (r "WEBSITE"))
      let li := pyLower (pyStrip (r "LINKEDIN"))
      let hint := if w != "" then take50 w else if li != "" then take50 li else ""
      if hint != "" then "name:" ++ nameKey ++ "::" ++ hint
      else "name:" ++ nameKey
    else "unique:" ++ tok

/-! ## Store (processor.process_records over contacts_db) -/

/-- The consolidated store: dedup key to record. -/
abbrev Store := String → Option Rec

/-- Dict assignment `contacts_db[k] = v`. -/
def setStore (db : Store) (k : String) (v : Rec) : Store :=
  fun k2 => if k2 = k then some v else db k2

/-- processor.process_records over contacts_db: each incoming record is paired
with the fresh token its (potential) last-resort key would use. -/
def procRecords (db : Store) : List (Rec × String) → Store
  | [] => db
  | (r, tok) :: rest =>
    let k := generateDedupKey tok r
    match db k with
    | some e => procRecords (setStore db k (mergeRecords e r)) rest
    | none => procRecords (setStore db k r) rest

/-- Is a dedup key of the email form? -/
def isEmailKey (k : String) : Bool := startsWithL "email:".data k.data

/-- Store invariant: every email-keyed entry is stored under the key its own
record generates (the email branch ignores the token). -/
def StoreInv (db : Store) : Prop :=
  ∀ k r, db k = some r → isEmailKey k = true → generateDedupKey "" r = k

/-! ## Helper lemmas -/

theorem strExt {a b : String} (h : a.data = b.data) : a = b := String.ext h

theorem appendData (a b : String) : (a ++ b).data = a.data ++ b.data := by
  cases a; cases b; rfl

theorem pyLower_eq_empty_iff (s : String) : pyLower s = "" ↔ s = "" := by
  cases s with
  | mk d =>
    constructor
    · intro h
      have hd : (pyLower ⟨d⟩).data = [] := by rw [h]
      simp [pyLower] at hd
      simp [hd]
    · intro h
      rw [h]; rfl

theorem pyLower_length (s : String) : (pyLower s).data.length = s.data.length := by
  simp [pyLower]

theorem mergeField_self (f v : String) (hf : f ≠ "INTERESTS") : mergeField f v v = v := by
  unfold mergeField
  by_cases h : pyStrip v = "" <;> simp [h, hf]

/-! ## Claim C1 -/

/-- A record whose INTERESTS value is not in the normalized token form. -/
def recUnsortedInterests : Rec := fun f => if f = "INTERESTS" then "b, a" else ""

/-- C1 counterexample: merging a record with itself is not the identity on
INTERESTS — the INTERESTS branch re-normalizes (splits, trims, dedups, sorts,
rejoins) the value, so `merge(r, r)` rewrites `"b, a"` to `"a, b"`. -/
theorem c1_idempotence_counterexample :
    ¬ (mergeRecords recUnsortedInterests recUnsortedInterests "INTERESTS"
        = recUnsortedInterests "INTERESTS") := by decide

/-- C1 (amended): merging a record with itself returns it unchanged on every
field other than INTERESTS; on INTERESTS, when the stored value is non-empty
after trimming, merge(r, r) yields the normalized combination of that value
with itself, so merge(r, r) is the identity on INTERESTS if and only if the
stored value is empty after trimming or already equal to its own normalized
combination. -/
theorem c1_merge_self_amended (r : Rec) :
    (∀ f, f ≠ "INTERESTS" → mergeRecords r r f = r f) ∧
    (pyStrip (r "INTERESTS") ≠ "" →
       mergeRecords r r "INTERESTS"
         = combineInterests (pyStrip (r "INTERESTS")) (pyStrip (r "INTERESTS"))) ∧
    (mergeRecords r r "INTERESTS" = r "INTERESTS" ↔
       (pyStrip (r "INTERESTS") = "" ∨
        combineInterests (pyStrip (r "INTERESTS")) (pyStrip (r "INTERESTS"))
          = r "INTERESTS")) := by
  have hval : mergeRecords r r "INTERESTS"
      = if pyStrip (r "INTERESTS") = "" then r "INTERESTS"
        else combineInterests (pyStrip (r "INTERESTS")) (pyStrip (r "INTERESTS")) := by
    have hmem : OUTPUT_FIELDS.contains "INTERESTS" = true := by decide
    unfold mergeRecords
    rw [if_pos hmem]
    unfold mergeField
    by_cases he : pyStrip (r "INTERESTS") = "" <;> simp [he]
  refine ⟨?_, ?_, ?_⟩
  · intro f hf
    unfold mergeRecords
    by_cases hmem : OUTPUT_FIELDS.contains f = true
    · rw [if_pos hmem]; exact mergeField_self f (r f) hf
    · rw [if_neg hmem]
  · intro hne
    rw [hval, if_neg hne]
  · rw [hval]
    by_cases he : pyStrip (r "INTERESTS") = ""
    · rw [if_pos he]
      exact ⟨fun _ => Or.inl he, fun _ => rfl⟩
    · rw [if_neg he]
      constructor
      · intro h; exact Or.inr h
      · intro h
        rcases h with h | h
        · exact absurd h he
        · exact h

/-- C1 witness: the amended statement applied at a record whose INTERESTS
value is already normalized. -/
def recSortedInterests : Rec :=
  fun f => if f = "INTERESTS" then "a, b" else if f = "EMAIL" then "x@y.com" else ""

theorem c1_merge_self_witness :
    mergeRecords recSortedInterests recSortedInterests "EMAIL"
      = recSortedInterests "EMAIL" ∧
    mergeRecords recSortedInterests recSortedInterests "INTERESTS"
      = recSortedInterests "INTERESTS" :=
  ⟨(c1_merge_self_amended recSortedInterests).1 "EMAIL" (by decide),
   (c1_merge_self_amended recSortedInterests).2.2.mpr (Or.inr (by decide))⟩

/-! ## Claim C7 -/

/-- Rule 1 of the classifier as the spec words it: the trimmed lower-cased
value contains an organization-indicator substring from the fixed list. -/
def companyRule1 (t : String) : Bool :=
  companyIndicators.any (fun ind => pyIn ind (pyLower (pyStrip t)))

/-- Rule 2: the value splits into two or more whitespace-separated words that
are all identical. -/
def companyRule2 (t : String) : Bool :=
  decide (2 ≤ (pyWords (pyLower (pyStrip t))).length)
    && (pyWords (pyLower (pyStrip t))).all
         (fun p => p == (pyWords (pyLower (pyStrip t))).headD "")

/-- Rule 3: the original value is entirely upper-case, longer than two
characters, and contains no honorific token. -/
def companyRule3 (t : String) : Bool :=
  pyIsUpper t && decide (2 < pyLen t)
    && !(honorifics.any (fun w => pyIn w (pyLower (pyStrip t))))

/-- C7: is_likely_company_name returns true exactly when one of the three
rules fires, and classifies the three reference examples as the spec states. -/
theorem c7_company_classifier :
    (∀ t, isLikelyCompanyName t = (companyRule1 t || companyRule2 t || companyRule3 t)) ∧
    isLikelyCompanyName "Acme Solutions Ltd" = true ∧
    isLikelyCompanyName "COVIDIEN COVIDIEN" = true ∧
    isLikelyCompanyName "John Smith" = false := by
  refine ⟨?_, by decide, by decide, by decide⟩
  intro t
  by_cases h : t = ""
  · subst h; decide
  · unfold isLikelyCompanyName companyRule1 companyRule2 companyRule3
    rw [if_neg h]
    cases companyIndicators.any (fun ind => pyIn ind (pyLower (pyStrip t))) <;>
      cases decide (2 ≤ (pyWords (pyLower (pyStrip t))).length)
          && (pyWords (pyLower (pyStrip t))).all
               (fun p => p == (pyWords (pyLower (pyStrip t))).headD "") <;>
        cases pyIsUpper t && decide (2 < pyLen t)
            && !(honorifics.any (fun w => pyIn w (pyLower (pyStrip t)))) <;>
          simp

/-- C7 witness: the general equivalence applied at a concrete input. -/
theorem c7_company_classifier_witness :
    isLikelyCompanyName "Acme Solutions Ltd"
      = (companyRule1 "Acme Solutions Ltd" || companyRule2 "Acme Solutions Ltd"
          || companyRule3 "Acme Solutions Ltd") :=
  c7_company_classifier.1 "Acme Solutions Ltd"

/-! ## Claim C8 -/

/-- C8: extract_name_parts by word count — 0 words gives two empty parts,
1 word is all firstname, 2 words split in order, 3 words join the first two
as the given name, 4 or more words join the last two as the surname; the four
reference examples behave as the spec states. -/
theorem c8_extract_name_parts :
    (∀ s : String,
      (pyWords (pyStrip s) = [] → extractNameParts s = ("", "")) ∧
      (∀ a, pyWords (pyStrip s) = [a] → extractNameParts s = (a, "")) ∧
      (∀ a b, pyWords (pyStrip s) = [a, b] → extractNameParts s = (a, b)) ∧
      (∀ a b c, pyWords (pyStrip s) = [a, b, c] →
         extractNameParts s = (a ++ " " ++ b, c)) ∧
      (4 ≤ (pyWords (pyStrip s)).length →
         extractNameParts s =
           (pyJoin " " ((pyWords (pyStrip s)).take ((pyWords (pyStrip s)).length - 2)),
            pyJoin " " ((pyWords (pyStrip s)).drop ((pyWords (pyStrip s)).length - 2))))) ∧
    extractNameParts "Ana Paula Medrano Filho" = ("Ana Paula", "Medrano Filho") ∧
    extractNameParts "John Smith" = ("John", "Smith") ∧
    extractNameParts "Madonna" = ("Madonna", "") ∧
    extractNameParts "" = ("", "") := by
  refine ⟨?_, by decide, by decide, by decide, by decide⟩
  intro s
  by_cases hs : s = ""
  · subst hs
    have he : pyWords (pyStrip "") = ([] : List String) := rfl
    refine ⟨fun _ => rfl, ?_, ?_, ?_, ?_⟩
    · intro a h; rw [he] at h; exact List.noConfusion h
    · intro a b h; rw [he] at h; exact List.noConfusion h
    · intro a b c h; rw [he] at h; exact List.noConfusion h
    · intro h; rw [he] at h; exact absurd h (by decide)
  · refine ⟨?_, ?_, ?_, ?_, ?_⟩
    · intro h; unfold extractNameParts; rw [if_neg hs]; simp [h]
    · intro a h; unfold extractNameParts; rw [if_neg hs]; simp [h]
    · intro a b h; unfold extractNameParts; rw [if_neg hs]; simp [h]
    · intro a b c h; unfold extractNameParts; rw [if_neg hs]; simp [h, pyJoin]
    · intro h
      unfold extractNameParts
      rw [if_neg hs]
      have h0 : (pyWords (pyStrip s)).length ≠ 0 := by omega
      have h1 : (pyWords (pyStrip s)).length ≠ 1 := by omega
      have h2 : (pyWords (pyStrip s)).length ≠ 2 := by omega
      have h3 : 3 < (pyWords (pyStrip s)).length := by omega
      rw [if_neg h0, if_neg h1, if_neg h2, if_pos h3]

/-- C8 witness: the two-word case applied at a concrete input. -/
theorem c8_extract_name_parts_witness :
    extractNameParts "Jane Doe" = ("Jane", "Doe") :=
  (c8_extract_name_parts.1 "Jane Doe").2.2.1 "Jane" "Doe" (by decide)

/-! ## Claim C10 -/

theorem containsGarbage_empty : containsGarbage "" = false := rfl

/-- The cleaned value never contains a garbage marker: clean_value returns
either the empty string or a stripped value that passed the very test the
defensive re-check repeats. -/
theorem containsGarbage_cleanValue (x : String) :
    containsGarbage (cleanValue x) = false := by
  unfold cleanValue
  by_cases hx : x = ""
  · rw [if_pos hx]; exact containsGarbage_empty
  · rw [if_neg hx]
    by_cases hg : containsGarbage (pyStrip x) = true
    · rw [if_pos hg]; exact containsGarbage_empty
    · rw [if_neg hg]; exact Bool.not_eq_true _ ▸ (Bool.of_not_eq_true hg)

/-- Every field of the mapped record is empty or a clean_value image. -/
theorem mappedRecord_field (fm : List (String × String)) (row : Row) (f : String) :
    mappedRecord fm row f = "" ∨ ∃ v, mappedRecord fm row f = cleanValue v := by
  unfold mappedRecord
  suffices h : ∀ (l : List (String × String)) (r : Rec),
      (∀ g, r g = "" ∨ ∃ v, r g = cleanValue v) →
      ∀ g, (l.foldl (fun r p => updF r p.1 (cleanValue (pyStrip (row p.2)))) r) g = ""
             ∨ ∃ v, (l.foldl (fun r p => updF r p.1 (cleanValue (pyStrip (row p.2)))) r) g
                      = cleanValue v by
    exact h fm outputTemplate (fun _ => Or.inl rfl) f
  intro l
  induction l with
  | nil => intro r hr g; exact hr g
  | cons p t ih =>
    intro r hr g
    refine ih _ ?_ g
    intro g2
    simp only [updF]
    by_cases hg2 : g2 = p.1
    · rw [if_pos hg2]; exact Or.inr ⟨_, rfl⟩
    · rw [if_neg hg2]; exact hr g2

/-- No field of a mapped-and-cleaned record contains a garbage marker. -/
theorem hasGarbageRec_mapped (fm : List (String × String)) (row : Row) :
    hasGarbageRec (mappedRecord fm row) = false := by
  unfold hasGarbageRec
  rw [List.any_eq_false]
  intro f _
  rcases mappedRecord_field fm row f with h | ⟨v, h⟩
  · rw [h]; simp [containsGarbage_empty]
  · rw [h]; simp [containsGarbage_cleanValue v]

/-- A row is dropped by the row loop exactly when the cleaned record still
has a garbage marker in a non-empty field, or EMAIL is empty, or EMAIL fails
the validity check. -/
theorem parseRow_none_iff (fm : List (String × String)) (row : Row) :
    parseRow fm row = none ↔
      hasGarbageRec (mappedRecord fm row) = true
      ∨ mappedRecord fm row "EMAIL" = ""
      ∨ isValidEmail (mappedRecord fm row "EMAIL") = false := by
  by_cases hg : hasGarbageRec (mappedRecord fm row) = true
  · simp only [parseRow]
    rw [if_pos hg]
    exact ⟨fun _ => Or.inl hg, fun _ => rfl⟩
  · simp only [parseRow]
    rw [if_neg hg]
    by_cases hcond : ((mappedRecord fm row "EMAIL" == "")
        || !isValidEmail (mappedRecord fm row "EMAIL")) = true
    · rw [if_pos hcond]
      simp only [Bool.or_eq_true, beq_iff_eq, Bool.not_eq_true'] at hcond
      exact ⟨fun _ => Or.inr hcond, fun _ => rfl⟩
    · rw [if_neg hcond]
      simp only [Bool.or_eq_true, beq_iff_eq, Bool.not_eq_true'] at hcond
      push_neg at hcond
      constructor
      · intro h; exact Option.noConfusion h
      · intro h
        rcases h with h | h | h
        · exact absurd h hg
        · exact absurd h hcond.1
        · exact absurd h (by simpa using hcond.2)

/-- C10: the defensive garbage re-check of the row loop is unreachable — no
field of a mapped-and-cleaned record contains a garbage marker, so a row is
dropped only for a missing or invalid email. -/
theorem c10_garbage_recheck_unreachable :
    (∀ x, containsGarbage (cleanValue x) = false) ∧
    (∀ (fm : List (String × String)) (row : Row),
       hasGarbageRec (mappedRecord fm row) = false) ∧
    (∀ (fm : List (String × String)) (row : Row),
       parseRow fm row = none ↔
         (mappedRecord fm row "EMAIL" = ""
           ∨ isValidEmail (mappedRecord fm row "EMAIL") = false)) := by
  refine ⟨containsGarbage_cleanValue, hasGarbageRec_mapped, ?_⟩
  intro fm row
  rw [parseRow_none_iff fm row, hasGarbageRec_mapped fm row]
  simp only [Bool.false_eq_true, false_or]

/-! ## Claim C4 -/

/-- The email branch of the dedup key generator: a non-empty trimmed email
yields the key `"email:" + lowercase(strip(EMAIL))`, independent of the
fresh token. -/
theorem genKey_email (tok : String) (r : Rec) (h : pyStrip (r "EMAIL") ≠ "") :
    generateDedupKey tok r = "email:" ++ pyLower (pyStrip (r "EMAIL")) := by
  have h2 : (pyLower (pyStrip (r "EMAIL")) != "") = true :=
    bne_iff_ne.mpr (fun he => h ((pyLower_eq_empty_iff _).mp he))
  simp only [generateDedupKey, h2, if_true]

/-- C4: for a record with a non-empty trimmed EMAIL, the dedup key is exactly
`"email:" + lowercase(trimmed EMAIL)`, and any record agreeing on
lowercase(trimmed EMAIL) — whatever its other fields or the fresh token —
receives the same key. -/
theorem c4_dedup_key_email (tok : String) (r : Rec) (h : pyStrip (r "EMAIL") ≠ "") :
    generateDedupKey tok r = "email:" ++ pyLower (pyStrip (r "EMAIL")) ∧
    ∀ (tok2 : String) (r2 : Rec),
      pyLower (pyStrip (r2 "EMAIL")) = pyLower (pyStrip (r "EMAIL")) →
      generateDedupKey tok2 r2 = generateDedupKey tok r := by
  refine ⟨genKey_email tok r h, ?_⟩
  intro tok2 r2 h2
  have hne : pyStrip (r2 "EMAIL") ≠ "" := by
    intro he
    apply h
    have h3 : pyLower (pyStrip (r "EMAIL")) = "" := by
      rw [← h2, he]; rfl
    exact (pyLower_eq_empty_iff _).mp h3
  rw [genKey_email tok2 r2 hne, genKey_email tok r h, h2]

/-- Records agreeing on EMAIL up to case and whitespace, differing elsewhere. -/
def recEmailA : Rec := fun f => if f = "EMAIL" then "  Jane@ACME.com " else "aaa"

def recEmailB : Rec := fun f => if f = "EMAIL" then "jane@acme.com" else "zzz"

/-- C4 witness: the key equality applied at two concrete records that agree
on EMAIL only up to case and surrounding whitespace. -/
theorem c4_dedup_key_email_witness :
    generateDedupKey "t1" recEmailA = "email:jane@acme.com" ∧
    generateDedupKey "t2" recEmailB = generateDedupKey "t1" recEmailA :=
  ⟨((c4_dedup_key_email "t1" recEmailA (by decide)).1).trans (by decide),
   (c4_dedup_key_email "t1" recEmailA (by decide)).2 "t2" recEmailB (by decide)⟩

/-! ## Claim C3 -/

/-- C3: the field-wise behaviour of _merge_records on trim-stable values —
empty existing takes the incoming value, INTERESTS combines both values,
otherwise the strictly longer value wins with ties kept by the existing
record, and two empty values stay empty. -/
theorem c3_merge_field_cases (e n : Rec) (f : String) (hf : f ∈ OUTPUT_FIELDS)
    (he : pyStrip (e f) = e f) (hn : pyStrip (n f) = n f) :
    (e f = "" → n f ≠ "" → mergeRecords e n f = n f) ∧
    (e f ≠ "" → n f ≠ "" → f = "INTERESTS" →
       mergeRecords e n f = combineInterests (e f) (n f)) ∧
    (e f ≠ "" → n f ≠ "" → f ≠ "INTERESTS" →
       mergeRecords e n f = if pyLen (e f) < pyLen (n f) then n f else e f) ∧
    (e f = "" → n f = "" → mergeRecords e n f = "") := by
  have hmem : OUTPUT_FIELDS.contains f = true := List.elem_eq_true_of_mem hf
  have hm : mergeRecords e n f = mergeField f (e f) (n f) := by
    unfold mergeRecords; rw [if_pos hmem]
  refine ⟨?_, ?_, ?_, ?_⟩
  · intro h1 h2
    rw [hm]; unfold mergeField; rw [he, hn]; simp [h1, h2]
  · intro h1 h2 h3
    subst h3
    rw [hm]; unfold mergeField; rw [he, hn]; simp [h1, h2]
  · intro h1 h2 h3
    rw [hm]; unfold mergeField; rw [he, hn]; simp [h1, h2, h3, pyLen]
  · intro h1 h2
    rw [hm]; unfold mergeField; rw [he, hn]; simp [h1, h2]

/-- Existing and incoming records for the INTERESTS example. -/
def recIntA : Rec :=
  fun f => if f = "EMAIL" then "a@b.com" else if f = "INTERESTS" then "tech, finance" else ""

def recIntB : Rec :=
  fun f => if f = "EMAIL" then "a@b.com" else if f = "INTERESTS" then "finance, health" else ""

/-- C3 witness: the INTERESTS case applied at the two concrete records of the
spec example, evaluating the combination to "finance, health, tech". -/
theorem c3_merge_field_cases_witness :
    mergeRecords recIntA recIntB "INTERESTS" = "finance, health, tech" :=
  ((c3_merge_field_cases recIntA recIntB "INTERESTS" (by decide) (by decide)
      (by decide)).2.1 (by decide) (by decide) rfl).trans (by decide)

/-! ## Claim C2 -/

/-- C2 counterexample: with raw headers ["Email Addresses", "Mail"], the
first matching alias of EMAIL ("email", a substring match) binds
"Email Addresses", yet a later alias ("mail") exactly matches the header
"Mail" and overwrites the binding — the exact-match assignment carries no
"not yet bound" guard.  The final mapping binds EMAIL to "Mail". -/
theorem c2_first_alias_counterexample :
    processPatterns (buildCols ["Email Addresses", "Mail"]) ["email"] none
      = some "Email Addresses" ∧
    dlookup (mapFields ["Email Addresses", "Mail"]) "EMAIL" = some "Mail" ∧
    ("Mail" : String) ≠ "Email Addresses" := by decide

/-- C2 (amended): a binding is stable under the remaining aliases only as
long as none of them exactly matches a raw header: if no remaining alias has
an exact match, the existing binding (however it was made) survives; but an
alias with an exact match rebinds the field to that header unconditionally
and stops the scan for this field. -/
theorem c2_binding_overwrite_amended :
    (∀ (cols : List (String × String)) (pats : List String) (b : String),
       (∀ pat ∈ pats, dlookup cols (pyLower pat) = none) →
       processPatterns cols pats (some b) = some b) ∧
    (∀ (cols : List (String × String)) (pat : String) (rest : List String)
       (b : Option String) (h : String),
       dlookup cols (pyLower pat) = some h →
       processPatterns cols (pat :: rest) b = some h) := by
  constructor
  · intro cols pats
    induction pats with
    | nil => intro b _; rfl
    | cons p t ih =>
      intro b hp
      have hp0 : dlookup cols (pyLower p) = none := hp p (List.mem_cons_self p t)
      simp only [processPatterns, hp0]
      exact ih b (fun q hq => hp q (List.mem_cons_of_mem p hq))
  · intro cols pat rest b h hh
    simp only [processPatterns, hh]

/-- C2 witness: both amended statements applied at concrete inputs — a bound
field survives an alias with no exact match, and an exact match binds. -/
theorem c2_binding_overwrite_amended_witness :
    processPatterns (buildCols ["Phone"]) ["zzz"] (some "Phone") = some "Phone" ∧
    processPatterns (buildCols ["Mail"]) ["mail"] none = some "Mail" :=
  ⟨c2_binding_overwrite_amended.1 (buildCols ["Phone"]) ["zzz"] "Phone" (by decide),
   c2_binding_overwrite_amended.2 (buildCols ["Mail"]) "mail" [] none "Mail" (by decide)⟩

/-! ## Claim C5 -/

/-- C5: each row of parse_file contributes at most one record (and a dropped
row leaves the processing of the remaining rows untouched), and a row is
dropped exactly when its cleaned record still shows garbage, or has an empty
EMAIL, or an EMAIL failing is_valid_email. -/
theorem c5_row_rejection (headers : List String) (rows : List Row) (row : Row) :
    (parseRows (mapFields headers) (row :: rows) = parseRows (mapFields headers) rows
      ∨ ∃ r, parseRows (mapFields headers) (row :: rows)
               = r :: parseRows (mapFields headers) rows) ∧
    (parseRow (mapFields headers) row = none ↔
       hasGarbageRec (mappedRecord (mapFields headers) row) = true
       ∨ mappedRecord (mapFields headers) row "EMAIL" = ""
       ∨ isValidEmail (mappedRecord (mapFields headers) row "EMAIL") = false) := by
  constructor
  · cases h : parseRow (mapFields headers) row with
    | none => left; simp only [parseRows, h]
    | some r => right; exact ⟨r, by simp only [parseRows, h]⟩
  · exact parseRow_none_iff (mapFields headers) row

/-- A row whose email is malformed. -/
def rowBadEmail : Row := fun h => if h = "Email" then "not-an-email" else ""

/-- C5 witness: the rejection criterion applied at a concrete header set and
row — a malformed email drops the row. -/
theorem c5_row_rejection_witness :
    parseRow (mapFields ["Email"]) rowBadEmail = none :=
  (c5_row_rejection ["Email"] [] rowBadEmail).2.mpr (Or.inr (Or.inr (by decide)))

/-! ## Word and trim lemmas (for C6) -/

theorem head?_dropWhile_false (p : Char → Bool) :
    ∀ (l : List Char) {c : Char}, (l.dropWhile p).head? = some c → p c = false := by
  intro l
  induction l with
  | nil => intro c h; simp [List.dropWhile] at h
  | cons a t ih =>
    intro c h
    by_cases hp : p a = true
    · rw [List.dropWhile_cons_of_pos hp] at h; exact ih h
    · rw [List.dropWhile_cons_of_neg hp] at h
      simp only [List.head?_cons, Option.some.injEq] at h
      rw [← h]
      exact Bool.of_not_eq_true hp

theorem prefix_head? {l₁ l₂ : List Char} (h : l₁ <+: l₂) (hne : l₁ ≠ []) :
    l₂.head? = l₁.head? := by
  obtain ⟨t, rfl⟩ := h
  cases l₁ with
  | nil => exact absurd rfl hne
  | cons a w => rfl

theorem trimList_isPre (l : List Char) : trimList l <+: l.dropWhile isWS := by
  have hs : (l.dropWhile isWS).reverse.dropWhile isWS <:+ (l.dropWhile isWS).reverse :=
    List.dropWhile_suffix isWS
  have hs2 : (((l.dropWhile isWS).reverse.dropWhile isWS).reverse).reverse
      <:+ (l.dropWhile isWS).reverse := by
    rw [List.reverse_reverse]; exact hs
  exact List.reverse_suffix.mp hs2

theorem head?_trimList_false (l : List Char) {c : Char}
    (h : (trimList l).head? = some c) : isWS c = false := by
  have hne : trimList l ≠ [] := by
    intro h0; rw [h0] at h; exact Option.noConfusion h
  have hp := prefix_head? (trimList_isPre l) hne
  exact head?_dropWhile_false isWS l (hp.trans h)

theorem getLast?_trimList_false (l : List Char) {c : Char}
    (h : (trimList l).getLast? = some c) : isWS c = false := by
  unfold trimList at h
  rw [List.getLast?_reverse] at h
  exact head?_dropWhile_false isWS _ h

theorem getLast?_mem_list {l : List Char} {a : Char} (h : l.getLast? = some a) :
    a ∈ l := by
  rcases List.mem_getLast?_eq_getLast (show a ∈ l.getLast? by rw [h]; rfl) with ⟨hne, hh⟩
  rw [hh]
  exact List.getLast_mem hne

theorem getLast?_cons_of_ne_nil {a : Char} {t : List Char} (ht : t ≠ []) :
    (a :: t).getLast? = t.getLast? := by
  cases t with
  | nil => exact absurd rfl ht
  | cons b u => exact List.getLast?_cons_cons

/-- Every word produced by the whitespace splitter is non-empty. -/
theorem wordsAux_mem_ne_nil : ∀ (l acc w : List Char), w ∈ wordsAux l acc → w ≠ [] := by
  intro l
  induction l with
  | nil =>
    intro acc w hw
    unfold wordsAux at hw
    by_cases ha : acc = []
    · rw [if_pos ha] at hw; exact absurd hw (List.not_mem_nil w)
    · rw [if_neg ha] at hw
      have hw2 : w = acc.reverse := by simpa using hw
      rw [hw2]
      simpa using ha
  | cons c t ih =>
    intro acc w hw
    unfold wordsAux at hw
    by_cases hc : isWS c = true
    · rw [if_pos hc] at hw
      by_cases ha : acc = []
      · rw [if_pos ha] at hw; exact ih [] w hw
      · rw [if_neg ha] at hw
        rcases List.mem_cons.mp hw with h | h
        · rw [h]; simpa using ha
        · exact ih [] w h
    · rw [if_neg hc] at hw
      exact ih (c :: acc) w hw

/-- The splitter yields at least one word when the accumulator is non-empty
or some non-whitespace character remains. -/
theorem wordsAux_one_le : ∀ (l acc : List Char),
    (acc ≠ [] ∨ ∃ c ∈ l, isWS c = false) → 1 ≤ (wordsAux l acc).length := by
  intro l
  induction l with
  | nil =>
    intro acc h
    rcases h with h | ⟨c, hc, _⟩
    · unfold wordsAux; rw [if_neg h]; simp
    · exact absurd hc (List.not_mem_nil c)
  | cons a t ih =>
    intro acc h
    unfold wordsAux
    by_cases ha : isWS a = true
    · rw [if_pos ha]
      by_cases hacc : acc = []
      · rw [if_pos hacc]
        apply ih []
        right
        rcases h with h | ⟨c, hc, hcws⟩
        · exact absurd hacc h
        · rcases List.mem_cons.mp hc with h2 | hc2
          · rw [h2] at hcws; rw [ha] at hcws; exact Bool.noConfusion hcws
          · exact ⟨c, hc2, hcws⟩
      · rw [if_neg hacc]; simp
    · rw [if_neg ha]
      apply ih (a :: acc)
      left; simp

/-- The splitter yields at least two words when the list contains whitespace,
ends in non-whitespace, and starts in non-whitespace (or a word is pending). -/
theorem wordsAux_two_le : ∀ (l acc : List Char),
    (∃ c ∈ l, isWS c = true) →
    (∀ d, l.getLast? = some d → isWS d = false) →
    (acc ≠ [] ∨ ∀ c, l.head? = some c → isWS c = false) →
    2 ≤ (wordsAux l acc).length := by
  intro l
  induction l with
  | nil =>
    intro acc hws _ _
    rcases hws with ⟨c, hc, _⟩
    exact absurd hc (List.not_mem_nil c)
  | cons a t ih =>
    intro acc hws hlast hhead
    unfold wordsAux
    by_cases ha : isWS a = true
    · have hacc : acc ≠ [] := by
        rcases hhead with h | h
        · exact h
        · have h2 := h a rfl
          rw [ha] at h2
          exact Bool.noConfusion h2
      rw [if_pos ha, if_neg hacc]
      have ht : t ≠ [] := by
        intro h0
        subst h0
        have h2 := hlast a rfl
        rw [ha] at h2
        exact Bool.noConfusion h2
      have hlast2 : ∀ d, t.getLast? = some d → isWS d = false := by
        intro d hd
        apply hlast
        rw [getLast?_cons_of_ne_nil ht]
        exact hd
      have hnonws : ∃ c ∈ t, isWS c = false := by
        cases hgl : t.getLast? with
        | none => exact absurd (List.getLast?_eq_none_iff.mp hgl) ht
        | some d => exact ⟨d, getLast?_mem_list hgl, hlast2 d hgl⟩
      have h1 := wordsAux_one_le t [] (Or.inr hnonws)
      simp only [List.length_cons]
      omega
    · rw [if_neg ha]
      apply ih (a :: acc)
      · rcases hws with ⟨c, hc, hcws⟩
        rcases List.mem_cons.mp hc with h2 | hc2
        · rw [h2] at hcws; exact absurd hcws ha
        · exact ⟨c, hc2, hcws⟩
      · intro d hd
        have ht : t ≠ [] := by
          intro h0
          rw [h0] at hd
          exact Option.noConfusion hd
        apply hlast
        rw [getLast?_cons_of_ne_nil ht]
        exact hd
      · left; simp

/-- A trimmed string with an internal space splits into at least two words. -/
theorem pyWords_two_le (s : String)
    (hsp : (pyStrip s).data.any (fun c => c == ' ') = true) :
    2 ≤ (pyWords (pyStrip s)).length := by
  have hws : ∃ c ∈ trimList s.data, isWS c = true := by
    rcases List.any_eq_true.mp hsp with ⟨c, hc, hceq⟩
    refine ⟨c, hc, ?_⟩
    have hc2 : c = ' ' := by simpa using hceq
    rw [hc2]; rfl
  have hlast : ∀ d, (trimList s.data).getLast? = some d → isWS d = false :=
    fun _ hd => getLast?_trimList_false s.data hd
  have hhead : ∀ c, (trimList s.data).head? = some c → isWS c = false :=
    fun _ hc => head?_trimList_false s.data hc
  have h2 := wordsAux_two_le (trimList s.data) [] hws hlast (Or.inr hhead)
  simpa [pyWords, pyStrip, List.length_map] using h2

/-- Every word of pyWords is a non-empty string. -/
theorem pyWords_mem_ne_empty (s w : String) (hw : w ∈ pyWords s) : w ≠ "" := by
  unfold pyWords at hw
  rcases List.mem_map.mp hw with ⟨wl, hwl, hmk⟩
  intro h0
  have hnil : wl = [] := congrArg String.data (hmk.trans h0)
  exact wordsAux_mem_ne_nil _ _ _ hwl hnil

theorem str_append_space_ne (x y : String) : x ++ " " ++ y ≠ "" := by
  intro h
  have hd := congrArg String.data h
  rw [appendData, appendData] at hd
  simp at hd

theorem pyJoin_space_ne_empty :
    ∀ (xs : List String), xs ≠ [] → (∀ w ∈ xs, w ≠ "") → pyJoin " " xs ≠ "" := by
  intro xs
  match xs with
  | [] => intro h _; exact absurd rfl h
  | [x] =>
    intro _ hw
    have : pyJoin " " [x] = x := rfl
    rw [this]
    exact hw x (by simp)
  | x :: y :: t =>
    intro _ _
    show x ++ " " ++ pyJoin " " (y :: t) ≠ ""
    exact str_append_space_ne _ _

/-- With at least two words, both name parts extracted are non-empty. -/
theorem extractNameParts_ne_empty (s : String)
    (h2 : 2 ≤ (pyWords (pyStrip s)).length) :
    (extractNameParts s).1 ≠ "" ∧ (extractNameParts s).2 ≠ "" := by
  have hs : s ≠ "" := by
    intro h0
    rw [h0] at h2
    exact absurd h2 (by decide)
  simp only [extractNameParts]
  rw [if_neg hs]
  have h0 : (pyWords (pyStrip s)).length ≠ 0 := by omega
  have h1 : (pyWords (pyStrip s)).length ≠ 1 := by omega
  rw [if_neg h0, if_neg h1]
  by_cases hlen2 : (pyWords (pyStrip s)).length = 2
  · rw [if_pos hlen2]
    obtain ⟨a, b, hab⟩ := List.length_eq_two.mp hlen2
    rw [hab]
    constructor
    · simpa using pyWords_mem_ne_empty (pyStrip s) a (by rw [hab]; simp)
    · simpa using pyWords_mem_ne_empty (pyStrip s) b (by rw [hab]; simp)
  · rw [if_neg hlen2]
    by_cases hlen3 : 3 < (pyWords (pyStrip s)).length
    · rw [if_pos hlen3]
      constructor
      · apply pyJoin_space_ne_empty
        · intro htake
          have hl := congrArg List.length htake
          rw [List.length_take] at hl
          simp at hl
          omega
        · intro w hw
          exact pyWords_mem_ne_empty (pyStrip s) w (List.mem_of_mem_take hw)
      · apply pyJoin_space_ne_empty
        · intro hdrop
          have hl := congrArg List.length hdrop
          rw [List.length_drop] at hl
          simp at hl
          omega
        · intro w hw
          exact pyWords_mem_ne_empty (pyStrip s) w (List.mem_of_mem_drop hw)
    · rw [if_neg hlen3]
      have hlen : (pyWords (pyStrip s)).length = 3 := by omega
      obtain ⟨a, b, c, habc⟩ := List.length_eq_three.mp hlen
      rw [habc]
      constructor
      · show pyJoin " " ([a, b, c].take (3 - 1)) ≠ ""
        show a ++ " " ++ pyJoin " " [b] ≠ ""
        exact str_append_space_ne _ _
      · simpa using pyWords_mem_ne_empty (pyStrip s) c (by rw [habc]; simp)

/-! ## Claim C6 -/

theorem updF_same (r : Rec) (k v : String) : updF r k v k = v := by simp [updF]

theorem updF_other (r : Rec) (k v f : String) (h : f ≠ k) : updF r k v f = r f := by
  simp [updF, h]

/-- When the company condition holds, name resolution clears the three person
name fields and leaves COMPANYNAME untouched. -/
theorem resolveNames_company (r : Rec) (hc : companyCond r = true) :
    resolveNames r "FIRSTNAME" = "" ∧ resolveNames r "LASTNAME" = "" ∧
    resolveNames r "FULLNAME" = "" ∧ resolveNames r "COMPANYNAME" = r "COMPANYNAME" := by
  unfold resolveNames
  rw [if_pos hc]
  exact ⟨rfl, rfl, rfl, rfl⟩

/-- When the company condition fails, name resolution never empties a
non-empty name field. -/
theorem resolveNames_not_company (r : Rec) (hc : companyCond r = false) :
    (r "FIRSTNAME" ≠ "" → resolveNames r "FIRSTNAME" ≠ "") ∧
    (r "LASTNAME" ≠ "" → resolveNames r "LASTNAME" ≠ "") ∧
    (r "FULLNAME" ≠ "" → resolveNames r "FULLNAME" ≠ "") := by
  have hc2 : ¬ (companyCond r = true) := by rw [hc]; simp
  simp only [resolveNames]
  rw [if_neg hc2]
  by_cases h1 : ((r "FIRSTNAME" != "") && (r "LASTNAME" != "")
      && (pyStrip (r "FIRSTNAME") == pyStrip (r "LASTNAME"))
      && (pyStrip (r "FIRSTNAME")).data.any (fun c => c == ' ')) = true
  · rw [if_pos h1]
    simp only [Bool.and_eq_true] at h1
    obtain ⟨⟨⟨hF, hL⟩, hEq⟩, hSp⟩ := h1
    have hparts := extractNameParts_ne_empty (r "FIRSTNAME")
      (pyWords_two_le (r "FIRSTNAME") hSp)
    refine ⟨?_, ?_, ?_⟩
    · intro _
      by_cases hful : ((updF (updF r "FIRSTNAME" (extractNameParts (r "FIRSTNAME")).1)
          "LASTNAME" (extractNameParts (r "FIRSTNAME")).2) "FULLNAME" == "") = true
      · rw [if_pos hful]
        simpa [updF] using hparts.1
      · rw [if_neg hful]
        simpa [updF] using hparts.1
    · intro _
      by_cases hful : ((updF (updF r "FIRSTNAME" (extractNameParts (r "FIRSTNAME")).1)
          "LASTNAME" (extractNameParts (r "FIRSTNAME")).2) "FULLNAME" == "") = true
      · rw [if_pos hful]
        simpa [updF] using hparts.2
      · rw [if_neg hful]
        simpa [updF] using hparts.2
    · intro hne
      by_cases hful : ((updF (updF r "FIRSTNAME" (extractNameParts (r "FIRSTNAME")).1)
          "LASTNAME" (extractNameParts (r "FIRSTNAME")).2) "FULLNAME" == "") = true
      · exfalso
        apply hne
        simpa [updF] using hful
      · rw [if_neg hful]
        simpa [updF] using hne
  · rw [if_neg h1]
    by_cases h2 : ((r "FULLNAME" != "")
        && ((r "FIRSTNAME" == "") || (r "LASTNAME" == ""))) = true
    · rw [if_pos h2]
      refine ⟨?_, ?_, ?_⟩
      · intro hne
        have hF : (r "FIRSTNAME" == "") = false := by
          rw [beq_eq_false_iff_ne]; exact hne
        rw [hF]
        simp only [Bool.false_eq_true, if_false]
        by_cases hL0 : (r "LASTNAME" == "") = true
        · rw [if_pos hL0]; simpa [updF] using hne
        · rw [if_neg hL0]; exact hne
      · intro hne
        have hL : (r "LASTNAME" == "") = false := by
          rw [beq_eq_false_iff_ne]; exact hne
        by_cases hF0 : (r "FIRSTNAME" == "") = true
        · rw [if_pos hF0]
          have hL2 : ((updF r "FIRSTNAME" (extractNameParts (r "FULLNAME")).1)
              "LASTNAME" == "") = false := by
            rw [beq_eq_false_iff_ne]
            simpa [updF] using hne
          rw [hL2]
          simp only [Bool.false_eq_true, if_false]
          simpa [updF] using hne
        · rw [if_neg hF0]
          rw [hL]
          simp only [Bool.false_eq_true, if_false]
          exact hne
      · intro hne
        by_cases hF0 : (r "FIRSTNAME" == "") = true <;>
          [rw [if_pos hF0]; rw [if_neg hF0]] <;>
          [by_cases hL0 : ((updF r "FIRSTNAME" (extractNameParts (r "FULLNAME")).1)
              "LASTNAME" == "") = true;
           by_cases hL0 : (r "LASTNAME" == "") = true] <;>
          [rw [if_pos hL0]; rw [if_neg hL0]; rw [if_pos hL0]; rw [if_neg hL0]] <;>
          simpa [updF] using hne
    · rw [if_neg h2]
      by_cases h3 : ((r "FULLNAME" == "")
          && ((r "FIRSTNAME" != "") || (r "LASTNAME" != ""))) = true
      · rw [if_pos h3]
        simp only [Bool.and_eq_true] at h3
        refine ⟨?_, ?_, ?_⟩
        · intro hne; simpa [updF] using hne
        · intro hne; simpa [updF] using hne
        · intro hne
          exfalso
          exact hne (by simpa using h3.1)
      · rw [if_neg h3]
        exact ⟨fun h => h, fun h => h, fun h => h⟩

/-- C6: for an accepted row, if the company condition of the row loop holds
(a name field classified as a company, or all three name fields equal and
single-word, or a name field equal to the non-empty COMPANYNAME), the emitted
record has empty FIRSTNAME/LASTNAME/FULLNAME and keeps its cleaned
COMPANYNAME; if it fails, no non-empty name field is emptied. -/
theorem c6_company_suppression (fm : List (String × String)) (row : Row) (rec : Rec)
    (hp : parseRow fm row = some rec) :
    (companyCond (mappedRecord fm row) = true →
       rec "FIRSTNAME" = "" ∧ rec "LASTNAME" = "" ∧ rec "FULLNAME" = "" ∧
       rec "COMPANYNAME" = mappedRecord fm row "COMPANYNAME") ∧
    (companyCond (mappedRecord fm row) = false →
       (mappedRecord fm row "FIRSTNAME" ≠ "" → rec "FIRSTNAME" ≠ "") ∧
       (mappedRecord fm row "LASTNAME" ≠ "" → rec "LASTNAME" ≠ "") ∧
       (mappedRecord fm row "FULLNAME" ≠ "" → rec "FULLNAME" ≠ "")) := by
  have hrec : rec = resolveNames (mappedRecord fm row) := by
    simp only [parseRow] at hp
    by_cases hg : hasGarbageRec (mappedRecord fm row) = true
    · rw [if_pos hg] at hp; exact Option.noConfusion hp
    · rw [if_neg hg] at hp
      by_cases hcond : ((mappedRecord fm row "EMAIL" == "")
          || !isValidEmail (mappedRecord fm row "EMAIL")) = true
      · rw [if_pos hcond] at hp; exact Option.noConfusion hp
      · rw [if_neg hcond] at hp; exact (Option.some.inj hp).symm
  subst hrec
  exact ⟨resolveNames_company (mappedRecord fm row),
         resolveNames_not_company (mappedRecord fm row)⟩

/-- Field mapping and row of the spec's company-suppression example. -/
def c6fm : List (String × String) :=
  [("EMAIL", "Email"), ("FULLNAME", "Full Name"), ("COMPANYNAME", "Company")]

def c6row : Row := fun h =>
  if h = "Email" then "info@acme.com"
  else if h = "Full Name" then "Acme Inc"
  else if h = "Company" then "Acme Inc" else ""

/-- C6 witness: the suppression applied at a concrete accepted row whose
FULLNAME duplicates the company name. -/
theorem c6_company_suppression_witness :
    resolveNames (mappedRecord c6fm c6row) "FULLNAME" = "" ∧
    resolveNames (mappedRecord c6fm c6row) "COMPANYNAME"
      = mappedRecord c6fm c6row "COMPANYNAME" :=
  have h := c6_company_suppression c6fm c6row
    (resolveNames (mappedRecord c6fm c6row)) rfl
  ⟨(h.1 (by decide)).2.2.1, (h.1 (by decide)).2.2.2⟩

/-! ## Claim C9 -/

theorem isEmailKey_name (a : String) : isEmailKey ("name:" ++ a) = false := by
  unfold isEmailKey; rw [appendData]; rfl

theorem isEmailKey_name_hint (a b : String) :
    isEmailKey ("name:" ++ a ++ "::" ++ b) = false := by
  unfold isEmailKey; rw [appendData, appendData, appendData]; rfl

theorem isEmailKey_unique (t : String) : isEmailKey ("unique:" ++ t) = false := by
  unfold isEmailKey; rw [appendData]; rfl

/-- A record with an empty trimmed email never generates an email-form key. -/
theorem isEmailKey_gen_false (tok : String) (r : Rec)
    (h : pyStrip (r "EMAIL") = "") :
    isEmailKey (generateDedupKey tok r) = false := by
  have he : pyLower (pyStrip (r "EMAIL")) = "" := by rw [h]; rfl
  simp only [generateDedupKey, he, bne_self_eq_false, Bool.false_eq_true, if_false]
  repeat' split
  all_goals
    first
      | exact isEmailKey_name_hint _ _
      | exact isEmailKey_name _
      | exact isEmailKey_unique _

/-- Email-form keys determine the lowered trimmed email. -/
theorem email_key_inj {a b : String} (h : "email:" ++ a = "email:" ++ b) : a = b := by
  have hd := congrArg String.data h
  rw [appendData, appendData] at hd
  exact strExt (List.append_cancel_left hd)

/-- The merge keeps the existing value of a non-INTERESTS field whose
incoming trimmed value is no longer than the existing trimmed value. -/
theorem mergeRecords_keep_of_len_le (e n : Rec) (f : String)
    (hmem : OUTPUT_FIELDS.contains f = true) (he : pyStrip (e f) ≠ "")
    (hfi : f ≠ "INTERESTS") (hlen : pyLen (pyStrip (n f)) ≤ pyLen (pyStrip (e f))) :
    mergeRecords e n f = e f := by
  unfold mergeRecords
  rw [if_pos hmem]
  unfold mergeField
  by_cases hn : pyStrip (n f) = "" <;>
    simp [he, hn, hfi, Nat.not_lt.mpr hlen]

/-- Key preservation under merge: two email-keyed records with equal keys
merge to a record with that same key. -/
theorem genKey_merge_stable (tokE tokN : String) (e n : Rec)
    (he : pyStrip (e "EMAIL") ≠ "") (hn : pyStrip (n "EMAIL") ≠ "")
    (hk : generateDedupKey tokE e = generateDedupKey tokN n) :
    generateDedupKey tokE (mergeRecords e n) = generateDedupKey tokE e := by
  have h1 := genKey_email tokE e he
  have h2 := genKey_email tokN n hn
  have hlow : pyLower (pyStrip (e "EMAIL")) = pyLower (pyStrip (n "EMAIL")) := by
    apply email_key_inj
    rw [← h1, ← h2]; exact hk
  have hlen : pyLen (pyStrip (n "EMAIL")) ≤ pyLen (pyStrip (e "EMAIL")) := by
    have hd := congrArg (fun s : String => s.data.length) hlow
    simp only [pyLower_length] at hd
    simp only [pyLen]
    omega
  have hkeep : mergeRecords e n "EMAIL" = e "EMAIL" :=
    mergeRecords_keep_of_len_le e n "EMAIL" (by decide) he (by decide) hlen
  have hm : pyStrip ((mergeRecords e n) "EMAIL") ≠ "" := by rw [hkeep]; exact he
  rw [genKey_email tokE _ hm, genKey_email tokE e he, hkeep]

/-- One store update preserves the email-key invariant. -/
theorem storeInv_set (db : Store) (inv : StoreInv db) (tok : String) (r : Rec)
    (v : Rec) (hv : isEmailKey (generateDedupKey tok r) = true →
                      generateDedupKey "" v = generateDedupKey tok r) :
    StoreInv (setStore db (generateDedupKey tok r) v) := by
  intro k2 r2 hget hpre
  unfold setStore at hget
  by_cases hk2 : k2 = generateDedupKey tok r
  · rw [if_pos hk2] at hget
    have hr2 : v = r2 := Option.some.inj hget
    rw [← hr2, hk2]
    exact hv (hk2 ▸ hpre)
  · rw [if_neg hk2] at hget
    exact inv k2 r2 hget hpre

/-- processor.process_records preserves the email-key store invariant. -/
theorem procRecords_inv :
    ∀ (items : List (Rec × String)) (db : Store),
      StoreInv db → StoreInv (procRecords db items) := by
  intro items
  induction items with
  | nil => intro db inv; exact inv
  | cons it rest ih =>
    intro db inv
    obtain ⟨r, tok⟩ := it
    cases hdb : db (generateDedupKey tok r) with
    | some ex =>
      have hstep : procRecords db ((r, tok) :: rest)
          = procRecords (setStore db (generateDedupKey tok r) (mergeRecords ex r)) rest := by
        simp only [procRecords, hdb]
      rw [hstep]
      apply ih
      apply storeInv_set db inv tok r
      intro hpre
      have hex : pyStrip (ex "EMAIL") ≠ "" := by
        intro hexe
        have hfalse := isEmailKey_gen_false "" ex hexe
        rw [inv _ ex hdb hpre] at hfalse
        rw [hpre] at hfalse
        exact Bool.noConfusion hfalse
      have hr : pyStrip (r "EMAIL") ≠ "" := by
        intro hre
        have hfalse := isEmailKey_gen_false tok r hre
        rw [hpre] at hfalse
        exact Bool.noConfusion hfalse
      have hkeq : generateDedupKey "" ex = generateDedupKey tok r :=
        inv _ ex hdb hpre
      have := genKey_merge_stable "" tok ex r hex hr hkeq
      rw [this, hkeq]
    | none =>
      have hstep : procRecords db ((r, tok) :: rest)
          = procRecords (setStore db (generateDedupKey tok r) r) rest := by
        simp only [procRecords, hdb]
      rw [hstep]
      apply ih
      apply storeInv_set db inv tok r
      intro hpre
      have hr : pyStrip (r "EMAIL") ≠ "" := by
        intro hre
        have hfalse := isEmailKey_gen_false tok r hre
        rw [hpre] at hfalse
        exact Bool.noConfusion hfalse
      rw [genKey_email "" r hr, genKey_email tok r hr]

/-- C9: two records with non-empty emails and equal dedup keys merge to a
record carrying that same key, and consequently process_records preserves the
invariant that each email-keyed store entry sits under its own record's key. -/
theorem c9_key_preserved_by_merge :
    (∀ (tokE tokN : String) (e n : Rec),
       pyStrip (e "EMAIL") ≠ "" → pyStrip (n "EMAIL") ≠ "" →
       generateDedupKey tokE e = generateDedupKey tokN n →
       generateDedupKey tokE (mergeRecords e n) = generateDedupKey tokE e) ∧
    (∀ (items : List (Rec × String)) (db : Store),
       StoreInv db → StoreInv (procRecords db items)) :=
  ⟨genKey_merge_stable, procRecords_inv⟩

/-- The empty store. -/
def emptyStore : Store := fun _ => none

/-- C9 witness: key stability applied at two concrete records that agree on
the email key, and invariant preservation applied starting from the empty
store. -/
theorem c9_key_preserved_by_merge_witness :
    generateDedupKey "t1" (mergeRecords recEmailA recEmailB)
      = generateDedupKey "t1" recEmailA ∧
    StoreInv (procRecords emptyStore [(recEmailB, "t2")]) :=
  ⟨c9_key_preserved_by_merge.1 "t1" "t2" recEmailA recEmailB
     (by decide) (by decide) (by decide),
   c9_key_preserved_by_merge.2 [(recEmailB, "t2")] emptyStore
     (fun _ _ hget _ => Option.noConfusion hget)⟩

end MLV

